import Mathlib

/-!
Verification of the spin-wait primitive in hwy/contrib/thread_pool/spin.h.

The three wait strategies (SpinPause, SpinMonitorX, SpinUMonitor) repeatedly
perform acquire loads of a watched 32-bit atomic until a condition holds.
We embed each loop shallowly: the watched atomic is modelled by the stream
of values that its successive acquire loads observe (a function from the
load index to the observed value), the unbounded loop is modelled with a
fuel bound, and every hardware interaction is recorded in an event trace so
that the order of loads, monitor arming, and wait instructions is visible.

The capability detector (DetectSpin) and the dispatcher (CallWithSpin) are
embedded as pure functions over an explicit build configuration (which
vendor variants are compiled in) and a CPU environment (vendor identity and
CPUID query results), which the C++ reads from preprocessor flags and from
the x86 CPUID helpers respectively.
-/

namespace hwy

/-- Embeds struct SpinResult (spin.h lines 56-62): the value observed by the
load that triggered the return, and the number of loop iterations before
returning.  The C++ fields are uint32_t; values are kept as Nat and the
loop counter is reduced mod 2^32 at the point of return, which yields the
same returned value as the C++ wrap-on-increment. -/
structure SpinResult where
  current : Nat
  reps : Nat
deriving DecidableEq, Repr

/-- Embeds enum class SpinType (spin.h lines 68-72). -/
inductive SpinType where
  | kMonitorX
  | kUMonitor
  | kPause
deriving DecidableEq, Repr

/-- The underlying integer value of each SpinType enumerator
(kMonitorX = 0, kUMonitor = 1, kPause = 2), as produced by
static_cast in the C++ source. -/
def spinTypeIndex : SpinType → Nat
  | SpinType.kMonitorX => 0
  | SpinType.kUMonitor => 1
  | SpinType.kPause => 2

/-- One observable interaction of a wait loop with the hardware: an
acquire-ordered load of the watched atomic observing value v, a store to
the watched atomic of value v (never emitted by any strategy; present so
that the frame property is expressible), the Pause hint, arming the AMD
monitor, the mwaitx wait, arming the Intel monitor, and the umwait wait. -/
inductive SpinEvent where
  | loadAcquire (v : Nat)
  | storeTo (v : Nat)
  | pause
  | monitorx
  | mwaitx
  | umonitor
  | umwait
deriving DecidableEq, Repr

/-- Whether an event writes the watched atomic. -/
def SpinEvent.isStore : SpinEvent → Bool
  | SpinEvent.storeTo _ => true
  | _ => false

/-- Embeds SpinPause::UntilDifferent (spin.h lines 98-105).  Arguments
after the stream and prev: remaining fuel (bound on loop iterations),
the loop counter reps, and the index of the next load in the stream.
Returns none when fuel runs out before the loop returns, together with
the trace of events performed. -/
def spinPauseUntilDifferent (loads : Nat → Nat) (prev : Nat) :
    Nat → Nat → Nat → Option SpinResult × List SpinEvent
  | 0, _, _ => (none, [])
  | fuel + 1, reps, idx =>
    let current := loads idx
    if current ≠ prev then
      (some { current := current, reps := reps % 2 ^ 32 },
        [SpinEvent.loadAcquire current])
    else
      let rest := spinPauseUntilDifferent loads prev fuel (reps + 1) (idx + 1)
      (rest.1, SpinEvent.loadAcquire current :: SpinEvent.pause :: rest.2)

/-- Embeds SpinPause::UntilEqual (spin.h lines 108-115).  The C++ counter
is a size_t, hence the reduction mod 2^64 at the return. -/
def spinPauseUntilEqual (loads : Nat → Nat) (expected : Nat) :
    Nat → Nat → Nat → Option Nat × List SpinEvent
  | 0, _, _ => (none, [])
  | fuel + 1, reps, idx =>
    let current := loads idx
    if current = expected then
      (some (reps % 2 ^ 64), [SpinEvent.loadAcquire current])
    else
      let rest := spinPauseUntilEqual loads expected fuel (reps + 1) (idx + 1)
      (rest.1, SpinEvent.loadAcquire current :: SpinEvent.pause :: rest.2)

/-- Embeds SpinMonitorX::UntilDifferent (spin.h lines 126-138): load and
test, arm the monitor with _mm_monitorx, load and test again
(double-checked lock), then _mm_mwaitx.  Each iteration consumes two
values from the load stream. -/
def spinMonitorXUntilDifferent (loads : Nat → Nat) (prev : Nat) :
    Nat → Nat → Nat → Option SpinResult × List SpinEvent
  | 0, _, _ => (none, [])
  | fuel + 1, reps, idx =>
    let c1 := loads idx
    if c1 ≠ prev then
      (some { current := c1, reps := reps % 2 ^ 32 }, [SpinEvent.loadAcquire c1])
    else
      let c2 := loads (idx + 1)
      if c2 ≠ prev then
        (some { current := c2, reps := reps % 2 ^ 32 },
          [SpinEvent.loadAcquire c1, SpinEvent.monitorx, SpinEvent.loadAcquire c2])
      else
        let rest := spinMonitorXUntilDifferent loads prev fuel (reps + 1) (idx + 2)
        (rest.1, SpinEvent.loadAcquire c1 :: SpinEvent.monitorx ::
          SpinEvent.loadAcquire c2 :: SpinEvent.mwaitx :: rest.2)

/-- Embeds SpinMonitorX::UntilEqual (spin.h lines 140-152). -/
def spinMonitorXUntilEqual (loads : Nat → Nat) (expected : Nat) :
    Nat → Nat → Nat → Option Nat × List SpinEvent
  | 0, _, _ => (none, [])
  | fuel + 1, reps, idx =>
    let c1 := loads idx
    if c1 = expected then
      (some (reps % 2 ^ 64), [SpinEvent.loadAcquire c1])
    else
      let c2 := loads (idx + 1)
      if c2 = expected then
        (some (reps % 2 ^ 64),
          [SpinEvent.loadAcquire c1, SpinEvent.monitorx, SpinEvent.loadAcquire c2])
      else
        let rest := spinMonitorXUntilEqual loads expected fuel (reps + 1) (idx + 2)
        (rest.1, SpinEvent.loadAcquire c1 :: SpinEvent.monitorx ::
          SpinEvent.loadAcquire c2 :: SpinEvent.mwaitx :: rest.2)

/-- Embeds SpinUMonitor::UntilDifferent (spin.h lines 175-186): identical
double-checked loop, arming with _umonitor and waiting with _umwait. -/
def spinUMonitorUntilDifferent (loads : Nat → Nat) (prev : Nat) :
    Nat → Nat → Nat → Option SpinResult × List SpinEvent
  | 0, _, _ => (none, [])
  | fuel + 1, reps, idx =>
    let c1 := loads idx
    if c1 ≠ prev then
      (some { current := c1, reps := reps % 2 ^ 32 }, [SpinEvent.loadAcquire c1])
    else
      let c2 := loads (idx + 1)
      if c2 ≠ prev then
        (some { current := c2, reps := reps % 2 ^ 32 },
          [SpinEvent.loadAcquire c1, SpinEvent.umonitor, SpinEvent.loadAcquire c2])
      else
        let rest := spinUMonitorUntilDifferent loads prev fuel (reps + 1) (idx + 2)
        (rest.1, SpinEvent.loadAcquire c1 :: SpinEvent.umonitor ::
          SpinEvent.loadAcquire c2 :: SpinEvent.umwait :: rest.2)

/-- Embeds SpinUMonitor::UntilEqual (spin.h lines 188-199). -/
def spinUMonitorUntilEqual (loads : Nat → Nat) (expected : Nat) :
    Nat → Nat → Nat → Option Nat × List SpinEvent
  | 0, _, _ => (none, [])
  | fuel + 1, reps, idx =>
    let c1 := loads idx
    if c1 = expected then
      (some (reps % 2 ^ 64), [SpinEvent.loadAcquire c1])
    else
      let c2 := loads (idx + 1)
      if c2 = expected then
        (some (reps % 2 ^ 64),
          [SpinEvent.loadAcquire c1, SpinEvent.umonitor, SpinEvent.loadAcquire c2])
      else
        let rest := spinUMonitorUntilEqual loads expected fuel (reps + 1) (idx + 2)
        (rest.1, SpinEvent.loadAcquire c1 :: SpinEvent.umonitor ::
          SpinEvent.loadAcquire c2 :: SpinEvent.umwait :: rest.2)

/-- The build configuration: whether HWY_ENABLE_MONITORX and
HWY_ENABLE_UMONITOR are set, i.e. which vendor variants are compiled in.
SpinPause is always available. -/
structure Build where
  enableMonitorX : Bool
  enableUMonitor : Bool
deriving DecidableEq, Repr

/-- The four registers filled by an x86 CPUID query, abcd[0..3] in the
C++ helpers (abcd[2] is ecx). -/
structure CpuidRegs where
  eax : Nat
  ebx : Nat
  ecx : Nat
  edx : Nat
deriving DecidableEq, Repr

/-- The processor-identification oracle consumed by DetectSpin: the
results of the x86::IsAMD, x86::MaxLevel and x86::Cpuid queries, which
live outside this core (hwy/x86_cpuid.h) and are read-only queries of
the host processor. -/
structure CpuEnv where
  isAMD : Bool
  maxLevel : Nat
  cpuid : Nat → Nat → CpuidRegs

/-- Modelled from the spec: x86::IsBitSet (from hwy/x86_cpuid.h, not part
of this core) reports whether the given feature bit of a register is set;
modelled as the bit test on the register value. -/
def isBitSet (reg bit : Nat) : Bool := Nat.testBit reg bit

/-- Embeds DetectSpin (spin.h lines 218-243).  The first component is the
returned SpinType; the second counts the HWY_WARN warning events emitted
(the warning sink is opaque).  The enabled lambda of the source,
(disabled & (1 << static_cast<int>(type))) == 0, is the negated bit test
on the disabled mask. -/
def DetectSpin (b : Build) (cpu : CpuEnv) (disabled : Nat) : SpinType × Nat :=
  let enabled := fun t : SpinType => !(Nat.testBit disabled (spinTypeIndex t))
  if b.enableMonitorX && enabled SpinType.kMonitorX && cpu.isAMD
      && isBitSet (cpu.cpuid 0x80000001 0).ecx 29 then
    (SpinType.kMonitorX, 0)
  else if b.enableUMonitor && enabled SpinType.kUMonitor
      && decide (7 ≤ cpu.maxLevel) && isBitSet (cpu.cpuid 7 0).ecx 5 then
    (SpinType.kUMonitor, 0)
  else if !(enabled SpinType.kPause) then
    (SpinType.kPause, 1)
  else
    (SpinType.kPause, 0)

/-- A strategy instance: the stateless value passed to the functor by
CallWithSpin (SpinPause(), SpinMonitorX() or SpinUMonitor()). -/
inductive SpinStrategy where
  | spinPause
  | spinMonitorX
  | spinUMonitor
deriving DecidableEq, Repr

/-- The Type() member of each strategy (spin.h lines 94, 124, 173). -/
def SpinStrategy.typeOf : SpinStrategy → SpinType
  | SpinStrategy.spinPause => SpinType.kPause
  | SpinStrategy.spinMonitorX => SpinType.kMonitorX
  | SpinStrategy.spinUMonitor => SpinType.kUMonitor

/-- Embeds CallWithSpin (spin.h lines 246-264).  The selector is modelled
by the underlying integer value of the SpinType argument, so that
unrecognized enumerator values, which the switch sends to the default
label, are representable.  A case label participates in the switch only
when its variant is compiled in (the #if guards around the cases); the
kPause case and the default label both construct SpinPause.  The second
component records the arguments of the calls made to func, so that
invoking it exactly once is expressible. -/
def CallWithSpin {α : Type} (b : Build) (rawSpinType : Nat)
    (func : SpinStrategy → α) : α × List SpinStrategy :=
  if b.enableMonitorX && rawSpinType == spinTypeIndex SpinType.kMonitorX then
    (func SpinStrategy.spinMonitorX, [SpinStrategy.spinMonitorX])
  else if b.enableUMonitor && rawSpinType == spinTypeIndex SpinType.kUMonitor then
    (func SpinStrategy.spinUMonitor, [SpinStrategy.spinUMonitor])
  else
    (func SpinStrategy.spinPause, [SpinStrategy.spinPause])

/-! Helper lemmas about the wait loops. -/

theorem pauseUD_ne (loads : Nat → Nat) (prev : Nat) :
    ∀ fuel reps idx res,
      (spinPauseUntilDifferent loads prev fuel reps idx).1 = some res →
      res.current ≠ prev ∧
        SpinEvent.loadAcquire res.current ∈
          (spinPauseUntilDifferent loads prev fuel reps idx).2 := by
  intro fuel
  induction fuel with
  | zero =>
    intro reps idx res h
    simp [spinPauseUntilDifferent] at h
  | succ n ih =>
    intro reps idx res h
    by_cases hc : loads idx = prev
    · rw [spinPauseUntilDifferent] at h ⊢
      simp only [hc, ne_eq, not_true_eq_false, if_false] at h ⊢
      have := ih (reps + 1) (idx + 1) res h
      exact ⟨this.1, List.mem_cons_of_mem _ (List.mem_cons_of_mem _ this.2)⟩
    · rw [spinPauseUntilDifferent] at h ⊢
      simp only [ne_eq, hc, not_false_eq_true, if_true] at h ⊢
      cases h
      simp [hc]

theorem monXUD_ne (loads : Nat → Nat) (prev : Nat) :
    ∀ fuel reps idx res,
      (spinMonitorXUntilDifferent loads prev fuel reps idx).1 = some res →
      res.current ≠ prev ∧
        SpinEvent.loadAcquire res.current ∈
          (spinMonitorXUntilDifferent loads prev fuel reps idx).2 := by
  intro fuel
  induction fuel with
  | zero =>
    intro reps idx res h
    simp [spinMonitorXUntilDifferent] at h
  | succ n ih =>
    intro reps idx res h
    by_cases hc1 : loads idx = prev
    · by_cases hc2 : loads (idx + 1) = prev
      · rw [spinMonitorXUntilDifferent] at h ⊢
        simp only [hc1, hc2, ne_eq, not_true_eq_false, if_false] at h ⊢
        have := ih (reps + 1) (idx + 2) res h
        refine ⟨this.1, ?_⟩
        simp only [List.mem_cons]
        exact Or.inr (Or.inr (Or.inr (Or.inr this.2)))
      · rw [spinMonitorXUntilDifferent] at h ⊢
        simp only [hc1, ne_eq, hc2, not_true_eq_false, not_false_eq_true,
          if_false, if_true] at h ⊢
        cases h
        simp [hc2]
    · rw [spinMonitorXUntilDifferent] at h ⊢
      simp only [ne_eq, hc1, not_false_eq_true, if_true] at h ⊢
      cases h
      simp [hc1]

theorem uMonUD_ne (loads : Nat → Nat) (prev : Nat) :
    ∀ fuel reps idx res,
      (spinUMonitorUntilDifferent loads prev fuel reps idx).1 = some res →
      res.current ≠ prev ∧
        SpinEvent.loadAcquire res.current ∈
          (spinUMonitorUntilDifferent loads prev fuel reps idx).2 := by
  intro fuel
  induction fuel with
  | zero =>
    intro reps idx res h
    simp [spinUMonitorUntilDifferent] at h
  | succ n ih =>
    intro reps idx res h
    by_cases hc1 : loads idx = prev
    · by_cases hc2 : loads (idx + 1) = prev
      · rw [spinUMonitorUntilDifferent] at h ⊢
        simp only [hc1, hc2, ne_eq, not_true_eq_false, if_false] at h ⊢
        have := ih (reps + 1) (idx + 2) res h
        refine ⟨this.1, ?_⟩
        simp only [List.mem_cons]
        exact Or.inr (Or.inr (Or.inr (Or.inr this.2)))
      · rw [spinUMonitorUntilDifferent] at h ⊢
        simp only [hc1, ne_eq, hc2, not_true_eq_false, not_false_eq_true,
          if_false, if_true] at h ⊢
        cases h
        simp [hc2]
    · rw [spinUMonitorUntilDifferent] at h ⊢
      simp only [ne_eq, hc1, not_false_eq_true, if_true] at h ⊢
      cases h
      simp [hc1]

theorem pause_monX_UD_same (loads : Nat → Nat) (prev : Nat) :
    ∀ fuel r1 r2 idx,
      Option.map SpinResult.current
          (spinPauseUntilDifferent loads prev (2 * fuel) r1 idx).1 =
        Option.map SpinResult.current
          (spinMonitorXUntilDifferent loads prev fuel r2 idx).1 := by
  intro fuel
  induction fuel with
  | zero => intro r1 r2 idx; rfl
  | succ n ih =>
    intro r1 r2 idx
    have h2 : 2 * (n + 1) = 2 * n + 1 + 1 := by ring
    rw [h2]
    by_cases hc1 : loads idx = prev
    · by_cases hc2 : loads (idx + 1) = prev
      · rw [spinPauseUntilDifferent, spinMonitorXUntilDifferent]
        simp only [hc1, hc2, ne_eq, not_true_eq_false, if_false]
        rw [spinPauseUntilDifferent]
        simp only [hc2, ne_eq, not_true_eq_false, if_false]
        exact ih (r1 + 1 + 1) (r2 + 1) (idx + 2)
      · rw [spinPauseUntilDifferent, spinMonitorXUntilDifferent]
        simp only [hc1, hc2, ne_eq, not_true_eq_false, not_false_eq_true,
          if_false, if_true]
        rw [spinPauseUntilDifferent]
        simp only [hc2, ne_eq, not_false_eq_true, if_true]
        rfl
    · rw [spinPauseUntilDifferent, spinMonitorXUntilDifferent]
      simp only [ne_eq, hc1, not_false_eq_true, if_true]
      rfl

theorem pause_uMon_UD_same (loads : Nat → Nat) (prev : Nat) :
    ∀ fuel r1 r2 idx,
      Option.map SpinResult.current
          (spinPauseUntilDifferent loads prev (2 * fuel) r1 idx).1 =
        Option.map SpinResult.current
          (spinUMonitorUntilDifferent loads prev fuel r2 idx).1 := by
  intro fuel
  induction fuel with
  | zero => intro r1 r2 idx; rfl
  | succ n ih =>
    intro r1 r2 idx
    have h2 : 2 * (n + 1) = 2 * n + 1 + 1 := by ring
    rw [h2]
    by_cases hc1 : loads idx = prev
    · by_cases hc2 : loads (idx + 1) = prev
      · rw [spinPauseUntilDifferent, spinUMonitorUntilDifferent]
        simp only [hc1, hc2, ne_eq, not_true_eq_false, if_false]
        rw [spinPauseUntilDifferent]
        simp only [hc2, ne_eq, not_true_eq_false, if_false]
        exact ih (r1 + 1 + 1) (r2 + 1) (idx + 2)
      · rw [spinPauseUntilDifferent, spinUMonitorUntilDifferent]
        simp only [hc1, hc2, ne_eq, not_true_eq_false, not_false_eq_true,
          if_false, if_true]
        rw [spinPauseUntilDifferent]
        simp only [hc2, ne_eq, not_false_eq_true, if_true]
        rfl
    · rw [spinPauseUntilDifferent, spinUMonitorUntilDifferent]
      simp only [ne_eq, hc1, not_false_eq_true, if_true]
      rfl

theorem pause_monX_UE_same (loads : Nat → Nat) (expected : Nat) :
    ∀ fuel r1 r2 idx,
      (spinPauseUntilEqual loads expected (2 * fuel) r1 idx).1.isSome =
        (spinMonitorXUntilEqual loads expected fuel r2 idx).1.isSome := by
  intro fuel
  induction fuel with
  | zero => intro r1 r2 idx; rfl
  | succ n ih =>
    intro r1 r2 idx
    have h2 : 2 * (n + 1) = 2 * n + 1 + 1 := by ring
    rw [h2]
    by_cases hc1 : loads idx = expected
    · rw [spinPauseUntilEqual, spinMonitorXUntilEqual]
      simp only [hc1, if_true, if_pos rfl]
      rfl
    · by_cases hc2 : loads (idx + 1) = expected
      · rw [spinPauseUntilEqual, spinMonitorXUntilEqual]
        simp only [hc1, hc2, if_false, if_true]
        rw [spinPauseUntilEqual]
        simp only [hc2, if_true, if_pos rfl]
        rfl
      · rw [spinPauseUntilEqual, spinMonitorXUntilEqual]
        simp only [hc1, hc2, if_false]
        rw [spinPauseUntilEqual]
        simp only [hc2, if_false]
        exact ih (r1 + 1 + 1) (r2 + 1) (idx + 2)

theorem pause_uMon_UE_same (loads : Nat → Nat) (expected : Nat) :
    ∀ fuel r1 r2 idx,
      (spinPauseUntilEqual loads expected (2 * fuel) r1 idx).1.isSome =
        (spinUMonitorUntilEqual loads expected fuel r2 idx).1.isSome := by
  intro fuel
  induction fuel with
  | zero => intro r1 r2 idx; rfl
  | succ n ih =>
    intro r1 r2 idx
    have h2 : 2 * (n + 1) = 2 * n + 1 + 1 := by ring
    rw [h2]
    by_cases hc1 : loads idx = expected
    · rw [spinPauseUntilEqual, spinUMonitorUntilEqual]
      simp only [hc1, if_true, if_pos rfl]
      rfl
    · by_cases hc2 : loads (idx + 1) = expected
      · rw [spinPauseUntilEqual, spinUMonitorUntilEqual]
        simp only [hc1, hc2, if_false, if_true]
        rw [spinPauseUntilEqual]
        simp only [hc2, if_true, if_pos rfl]
        rfl
      · rw [spinPauseUntilEqual, spinUMonitorUntilEqual]
        simp only [hc1, hc2, if_false]
        rw [spinPauseUntilEqual]
        simp only [hc2, if_false]
        exact ih (r1 + 1 + 1) (r2 + 1) (idx + 2)

/-- The events of one completed SpinMonitorX iteration that observed the
pair of values p: load, arm, load, wait. -/
def fullRoundX (p : Nat × Nat) : List SpinEvent :=
  [SpinEvent.loadAcquire p.1, SpinEvent.monitorx, SpinEvent.loadAcquire p.2,
    SpinEvent.mwaitx]

/-- The events of one completed SpinUMonitor iteration that observed the
pair of values p: load, arm, load, wait. -/
def fullRoundU (p : Nat × Nat) : List SpinEvent :=
  [SpinEvent.loadAcquire p.1, SpinEvent.umonitor, SpinEvent.loadAcquire p.2,
    SpinEvent.umwait]

theorem monXUD_rounds (loads : Nat → Nat) (prev : Nat) :
    ∀ fuel reps idx res,
      (spinMonitorXUntilDifferent loads prev fuel reps idx).1 = some res →
      ∃ rounds : List (Nat × Nat), ∃ tail : List SpinEvent,
        (spinMonitorXUntilDifferent loads prev fuel reps idx).2 =
          rounds.flatMap fullRoundX ++ tail ∧
        (∀ p ∈ rounds, p.1 = prev ∧ p.2 = prev) ∧
        res.reps = (reps + rounds.length) % 2 ^ 32 ∧
        (tail = [SpinEvent.loadAcquire res.current] ∨
          tail = [SpinEvent.loadAcquire prev, SpinEvent.monitorx,
            SpinEvent.loadAcquire res.current]) ∧
        res.current ≠ prev := by
  intro fuel
  induction fuel with
  | zero =>
    intro reps idx res h
    simp [spinMonitorXUntilDifferent] at h
  | succ n ih =>
    intro reps idx res h
    by_cases hc1 : loads idx = prev
    · by_cases hc2 : loads (idx + 1) = prev
      · rw [spinMonitorXUntilDifferent] at h ⊢
        simp only [hc1, hc2, ne_eq, not_true_eq_false, if_false] at h ⊢
        obtain ⟨rounds, tail, htr, hro, hre, hta, hne⟩ := ih (reps + 1) (idx + 2) res h
        refine ⟨(prev, prev) :: rounds, tail, ?_, ?_, ?_, hta, hne⟩
        · simp [List.flatMap, fullRoundX, htr, hc1, hc2]
        · intro p hp
          rcases List.mem_cons.mp hp with hp | hp
          · subst hp; exact ⟨rfl, rfl⟩
          · exact hro p hp
        · rw [hre, List.length_cons]
          ring_nf
      · rw [spinMonitorXUntilDifferent] at h ⊢
        simp only [hc1, ne_eq, hc2, not_true_eq_false, not_false_eq_true,
          if_false, if_true] at h ⊢
        cases h
        exact ⟨[], _, by simp [hc1], by simp, by simp, Or.inr rfl, hc2⟩
    · rw [spinMonitorXUntilDifferent] at h ⊢
      simp only [ne_eq, hc1, not_false_eq_true, if_true] at h ⊢
      cases h
      exact ⟨[], _, by simp, by simp, by simp, Or.inl rfl, hc1⟩

theorem uMonUD_rounds (loads : Nat → Nat) (prev : Nat) :
    ∀ fuel reps idx res,
      (spinUMonitorUntilDifferent loads prev fuel reps idx).1 = some res →
      ∃ rounds : List (Nat × Nat), ∃ tail : List SpinEvent,
        (spinUMonitorUntilDifferent loads prev fuel reps idx).2 =
          rounds.flatMap fullRoundU ++ tail ∧
        (∀ p ∈ rounds, p.1 = prev ∧ p.2 = prev) ∧
        res.reps = (reps + rounds.length) % 2 ^ 32 ∧
        (tail = [SpinEvent.loadAcquire res.current] ∨
          tail = [SpinEvent.loadAcquire prev, SpinEvent.umonitor,
            SpinEvent.loadAcquire res.current]) ∧
        res.current ≠ prev := by
  intro fuel
  induction fuel with
  | zero =>
    intro reps idx res h
    simp [spinUMonitorUntilDifferent] at h
  | succ n ih =>
    intro reps idx res h
    by_cases hc1 : loads idx = prev
    · by_cases hc2 : loads (idx + 1) = prev
      · rw [spinUMonitorUntilDifferent] at h ⊢
        simp only [hc1, hc2, ne_eq, not_true_eq_false, if_false] at h ⊢
        obtain ⟨rounds, tail, htr, hro, hre, hta, hne⟩ := ih (reps + 1) (idx + 2) res h
        refine ⟨(prev, prev) :: rounds, tail, ?_, ?_, ?_, hta, hne⟩
        · simp [List.flatMap, fullRoundU, htr, hc1, hc2]
        · intro p hp
          rcases List.mem_cons.mp hp with hp | hp
          · subst hp; exact ⟨rfl, rfl⟩
          · exact hro p hp
        · rw [hre, List.length_cons]
          ring_nf
      · rw [spinUMonitorUntilDifferent] at h ⊢
        simp only [hc1, ne_eq, hc2, not_true_eq_false, not_false_eq_true,
          if_false, if_true] at h ⊢
        cases h
        exact ⟨[], _, by simp [hc1], by simp, by simp, Or.inr rfl, hc2⟩
    · rw [spinUMonitorUntilDifferent] at h ⊢
      simp only [ne_eq, hc1, not_false_eq_true, if_true] at h ⊢
      cases h
      exact ⟨[], _, by simp, by simp, by simp, Or.inl rfl, hc1⟩

theorem monXUE_rounds (loads : Nat → Nat) (expected : Nat) :
    ∀ fuel reps idx n,
      (spinMonitorXUntilEqual loads expected fuel reps idx).1 = some n →
      ∃ rounds : List (Nat × Nat), ∃ tail : List SpinEvent,
        (spinMonitorXUntilEqual loads expected fuel reps idx).2 =
          rounds.flatMap fullRoundX ++ tail ∧
        (∀ p ∈ rounds, p.1 ≠ expected ∧ p.2 ≠ expected) ∧
        n = (reps + rounds.length) % 2 ^ 64 ∧
        (tail = [SpinEvent.loadAcquire expected] ∨
          ∃ a, a ≠ expected ∧
            tail = [SpinEvent.loadAcquire a, SpinEvent.monitorx,
              SpinEvent.loadAcquire expected]) := by
  intro fuel
  induction fuel with
  | zero =>
    intro reps idx n h
    simp [spinMonitorXUntilEqual] at h
  | succ m ih =>
    intro reps idx n h
    by_cases hc1 : loads idx = expected
    · rw [spinMonitorXUntilEqual] at h ⊢
      simp only [hc1, if_true, if_pos rfl] at h ⊢
      cases h
      exact ⟨[], [SpinEvent.loadAcquire expected], by simp, by simp, by simp,
        Or.inl rfl⟩
    · by_cases hc2 : loads (idx + 1) = expected
      · rw [spinMonitorXUntilEqual] at h ⊢
        simp only [hc1, hc2, if_false, if_true, if_pos rfl] at h ⊢
        cases h
        exact ⟨[], [SpinEvent.loadAcquire (loads idx), SpinEvent.monitorx,
            SpinEvent.loadAcquire expected], by simp, by simp, by simp,
          Or.inr ⟨loads idx, hc1, rfl⟩⟩
      · rw [spinMonitorXUntilEqual] at h ⊢
        simp only [hc1, hc2, if_false] at h ⊢
        obtain ⟨rounds, tail, htr, hro, hre, hta⟩ := ih (reps + 1) (idx + 2) n h
        refine ⟨(loads idx, loads (idx + 1)) :: rounds, tail, ?_, ?_, ?_, hta⟩
        · simp [List.flatMap, fullRoundX, htr]
        · intro p hp
          rcases List.mem_cons.mp hp with hp | hp
          · subst hp; exact ⟨hc1, hc2⟩
          · exact hro p hp
        · rw [hre, List.length_cons]
          ring_nf

theorem uMonUE_rounds (loads : Nat → Nat) (expected : Nat) :
    ∀ fuel reps idx n,
      (spinUMonitorUntilEqual loads expected fuel reps idx).1 = some n →
      ∃ rounds : List (Nat × Nat), ∃ tail : List SpinEvent,
        (spinUMonitorUntilEqual loads expected fuel reps idx).2 =
          rounds.flatMap fullRoundU ++ tail ∧
        (∀ p ∈ rounds, p.1 ≠ expected ∧ p.2 ≠ expected) ∧
        n = (reps + rounds.length) % 2 ^ 64 ∧
        (tail = [SpinEvent.loadAcquire expected] ∨
          ∃ a, a ≠ expected ∧
            tail = [SpinEvent.loadAcquire a, SpinEvent.umonitor,
              SpinEvent.loadAcquire expected]) := by
  intro fuel
  induction fuel with
  | zero =>
    intro reps idx n h
    simp [spinUMonitorUntilEqual] at h
  | succ m ih =>
    intro reps idx n h
    by_cases hc1 : loads idx = expected
    · rw [spinUMonitorUntilEqual] at h ⊢
      simp only [hc1, if_true, if_pos rfl] at h ⊢
      cases h
      exact ⟨[], [SpinEvent.loadAcquire expected], by simp, by simp, by simp,
        Or.inl rfl⟩
    · by_cases hc2 : loads (idx + 1) = expected
      · rw [spinUMonitorUntilEqual] at h ⊢
        simp only [hc1, hc2, if_false, if_true, if_pos rfl] at h ⊢
        cases h
        exact ⟨[], [SpinEvent.loadAcquire (loads idx), SpinEvent.umonitor,
            SpinEvent.loadAcquire expected], by simp, by simp, by simp,
          Or.inr ⟨loads idx, hc1, rfl⟩⟩
      · rw [spinUMonitorUntilEqual] at h ⊢
        simp only [hc1, hc2, if_false] at h ⊢
        obtain ⟨rounds, tail, htr, hro, hre, hta⟩ := ih (reps + 1) (idx + 2) n h
        refine ⟨(loads idx, loads (idx + 1)) :: rounds, tail, ?_, ?_, ?_, hta⟩
        · simp [List.flatMap, fullRoundU, htr]
        · intro p hp
          rcases List.mem_cons.mp hp with hp | hp
          · subst hp; exact ⟨hc1, hc2⟩
          · exact hro p hp
        · rw [hre, List.length_cons]
          ring_nf

theorem pauseUE_count (loads : Nat → Nat) (expected : Nat) :
    ∀ fuel reps idx n,
      (spinPauseUntilEqual loads expected fuel reps idx).1 = some n →
      SpinEvent.loadAcquire expected ∈
          (spinPauseUntilEqual loads expected fuel reps idx).2 ∧
      n = (reps +
          (spinPauseUntilEqual loads expected fuel reps idx).2.count
            SpinEvent.pause) % 2 ^ 64 := by
  intro fuel
  induction fuel with
  | zero => intro reps idx n h; simp [spinPauseUntilEqual] at h
  | succ m ih =>
    intro reps idx n h
    by_cases hc : loads idx = expected
    · rw [spinPauseUntilEqual] at h ⊢
      simp only [hc, if_true, if_pos rfl] at h ⊢
      cases h
      exact ⟨by simp, by simp [List.count_cons]⟩
    · rw [spinPauseUntilEqual] at h ⊢
      simp only [hc, if_false] at h ⊢
      obtain ⟨hm, hn⟩ := ih (reps + 1) (idx + 1) n h
      refine ⟨List.mem_cons_of_mem _ (List.mem_cons_of_mem _ hm), ?_⟩
      rw [hn]
      simp [List.count_cons]
      ring_nf

theorem monXUE_count (loads : Nat → Nat) (expected : Nat) :
    ∀ fuel reps idx n,
      (spinMonitorXUntilEqual loads expected fuel reps idx).1 = some n →
      SpinEvent.loadAcquire expected ∈
          (spinMonitorXUntilEqual loads expected fuel reps idx).2 ∧
      n = (reps +
          (spinMonitorXUntilEqual loads expected fuel reps idx).2.count
            SpinEvent.mwaitx) % 2 ^ 64 := by
  intro fuel
  induction fuel with
  | zero => intro reps idx n h; simp [spinMonitorXUntilEqual] at h
  | succ m ih =>
    intro reps idx n h
    by_cases hc1 : loads idx = expected
    · rw [spinMonitorXUntilEqual] at h ⊢
      simp only [hc1, if_true, if_pos rfl] at h ⊢
      cases h
      exact ⟨by simp, by simp [List.count_cons]⟩
    · by_cases hc2 : loads (idx + 1) = expected
      · rw [spinMonitorXUntilEqual] at h ⊢
        simp only [hc1, hc2, if_false, if_true, if_pos rfl] at h ⊢
        cases h
        exact ⟨by simp, by simp [List.count_cons]⟩
      · rw [spinMonitorXUntilEqual] at h ⊢
        simp only [hc1, hc2, if_false] at h ⊢
        obtain ⟨hm, hn⟩ := ih (reps + 1) (idx + 2) n h
        refine ⟨?_, ?_⟩
        · simp only [List.mem_cons]
          exact Or.inr (Or.inr (Or.inr (Or.inr hm)))
        · rw [hn]
          simp [List.count_cons]
          ring_nf

theorem uMonUE_count (loads : Nat → Nat) (expected : Nat) :
    ∀ fuel reps idx n,
      (spinUMonitorUntilEqual loads expected fuel reps idx).1 = some n →
      SpinEvent.loadAcquire expected ∈
          (spinUMonitorUntilEqual loads expected fuel reps idx).2 ∧
      n = (reps +
          (spinUMonitorUntilEqual loads expected fuel reps idx).2.count
            SpinEvent.umwait) % 2 ^ 64 := by
  intro fuel
  induction fuel with
  | zero => intro reps idx n h; simp [spinUMonitorUntilEqual] at h
  | succ m ih =>
    intro reps idx n h
    by_cases hc1 : loads idx = expected
    · rw [spinUMonitorUntilEqual] at h ⊢
      simp only [hc1, if_true, if_pos rfl] at h ⊢
      cases h
      exact ⟨by simp, by simp [List.count_cons]⟩
    · by_cases hc2 : loads (idx + 1) = expected
      · rw [spinUMonitorUntilEqual] at h ⊢
        simp only [hc1, hc2, if_false, if_true, if_pos rfl] at h ⊢
        cases h
        exact ⟨by simp, by simp [List.count_cons]⟩
      · rw [spinUMonitorUntilEqual] at h ⊢
        simp only [hc1, hc2, if_false] at h ⊢
        obtain ⟨hm, hn⟩ := ih (reps + 1) (idx + 2) n h
        refine ⟨?_, ?_⟩
        · simp only [List.mem_cons]
          exact Or.inr (Or.inr (Or.inr (Or.inr hm)))
        · rw [hn]
          simp [List.count_cons]
          ring_nf

theorem pauseUD_noStore (loads : Nat → Nat) (prev : Nat) :
    ∀ fuel reps idx,
      ((spinPauseUntilDifferent loads prev fuel reps idx).2.all
        fun e => !e.isStore) = true := by
  intro fuel
  induction fuel with
  | zero => intro reps idx; rfl
  | succ m ih =>
    intro reps idx
    by_cases hc : loads idx = prev
    · rw [spinPauseUntilDifferent]
      simp only [hc, ne_eq, not_true_eq_false, if_false]
      exact ih (reps + 1) (idx + 1)
    · rw [spinPauseUntilDifferent]
      simp only [ne_eq, hc, not_false_eq_true, if_true]
      rfl

theorem pauseUE_noStore (loads : Nat → Nat) (expected : Nat) :
    ∀ fuel reps idx,
      ((spinPauseUntilEqual loads expected fuel reps idx).2.all
        fun e => !e.isStore) = true := by
  intro fuel
  induction fuel with
  | zero => intro reps idx; rfl
  | succ m ih =>
    intro reps idx
    by_cases hc : loads idx = expected
    · rw [spinPauseUntilEqual]
      simp only [hc, if_true, if_pos rfl]
      rfl
    · rw [spinPauseUntilEqual]
      simp only [hc, if_false]
      exact ih (reps + 1) (idx + 1)

theorem monXUD_noStore (loads : Nat → Nat) (prev : Nat) :
    ∀ fuel reps idx,
      ((spinMonitorXUntilDifferent loads prev fuel reps idx).2.all
        fun e => !e.isStore) = true := by
  intro fuel
  induction fuel with
  | zero => intro reps idx; rfl
  | succ m ih =>
    intro reps idx
    by_cases hc1 : loads idx = prev
    · by_cases hc2 : loads (idx + 1) = prev
      · rw [spinMonitorXUntilDifferent]
        simp only [hc1, hc2, ne_eq, not_true_eq_false, if_false]
        exact ih (reps + 1) (idx + 2)
      · rw [spinMonitorXUntilDifferent]
        simp only [hc1, ne_eq, hc2, not_true_eq_false, not_false_eq_true,
          if_false, if_true]
        rfl
    · rw [spinMonitorXUntilDifferent]
      simp only [ne_eq, hc1, not_false_eq_true, if_true]
      rfl

theorem monXUE_noStore (loads : Nat → Nat) (expected : Nat) :
    ∀ fuel reps idx,
      ((spinMonitorXUntilEqual loads expected fuel reps idx).2.all
        fun e => !e.isStore) = true := by
  intro fuel
  induction fuel with
  | zero => intro reps idx; rfl
  | succ m ih =>
    intro reps idx
    by_cases hc1 : loads idx = expected
    · rw [spinMonitorXUntilEqual]
      simp only [hc1, if_true, if_pos rfl]
      rfl
    · by_cases hc2 : loads (idx + 1) = expected
      · rw [spinMonitorXUntilEqual]
        simp only [hc1, hc2, if_false, if_true, if_pos rfl]
        rfl
      · rw [spinMonitorXUntilEqual]
        simp only [hc1, hc2, if_false]
        exact ih (reps + 1) (idx + 2)

theorem uMonUD_noStore (loads : Nat → Nat) (prev : Nat) :
    ∀ fuel reps idx,
      ((spinUMonitorUntilDifferent loads prev fuel reps idx).2.all
        fun e => !e.isStore) = true := by
  intro fuel
  induction fuel with
  | zero => intro reps idx; rfl
  | succ m ih =>
    intro reps idx
    by_cases hc1 : loads idx = prev
    · by_cases hc2 : loads (idx + 1) = prev
      · rw [spinUMonitorUntilDifferent]
        simp only [hc1, hc2, ne_eq, not_true_eq_false, if_false]
        exact ih (reps + 1) (idx + 2)
      · rw [spinUMonitorUntilDifferent]
        simp only [hc1, ne_eq, hc2, not_true_eq_false, not_false_eq_true,
          if_false, if_true]
        rfl
    · rw [spinUMonitorUntilDifferent]
      simp only [ne_eq, hc1, not_false_eq_true, if_true]
      rfl

theorem uMonUE_noStore (loads : Nat → Nat) (expected : Nat) :
    ∀ fuel reps idx,
      ((spinUMonitorUntilEqual loads expected fuel reps idx).2.all
        fun e => !e.isStore) = true := by
  intro fuel
  induction fuel with
  | zero => intro reps idx; rfl
  | succ m ih =>
    intro reps idx
    by_cases hc1 : loads idx = expected
    · rw [spinUMonitorUntilEqual]
      simp only [hc1, if_true, if_pos rfl]
      rfl
    · by_cases hc2 : loads (idx + 1) = expected
      · rw [spinUMonitorUntilEqual]
        simp only [hc1, hc2, if_false, if_true, if_pos rfl]
        rfl
      · rw [spinUMonitorUntilEqual]
        simp only [hc1, hc2, if_false]
        exact ih (reps + 1) (idx + 2)

/-- A CPU environment of an AMD processor whose extended leaf 0x80000001
reports ECX bit 29 (MONITORX) set and whose leaf 7 reports no bits. -/
def amdMonitorXCpu : CpuEnv :=
  { isAMD := true, maxLevel := 7,
    cpuid := fun leaf _ =>
      if leaf = 0x80000001 then { eax := 0, ebx := 0, ecx := 2 ^ 29, edx := 0 }
      else { eax := 0, ebx := 0, ecx := 0, edx := 0 } }

/-- A CPU environment reporting no monitor/wait feature at all. -/
def plainCpu : CpuEnv :=
  { isAMD := false, maxLevel := 1,
    cpuid := fun _ _ => { eax := 0, ebx := 0, ecx := 0, edx := 0 } }

/-! Claim theorems. -/

/-- Claim C3: DetectSpin follows strict priority.  It returns kMonitorX
exactly when MonitorX support is compiled in, bit 0 of the disabled mask
is clear, the processor is AMD and ECX bit 29 of extended CPUID leaf
0x80000001 is set; otherwise it returns kUMonitor exactly when UMonitor
support is compiled in, bit 1 of the disabled mask is clear, the maximum
CPUID level is at least 7 and ECX bit 5 of leaf 7 is set; otherwise it
returns kPause.  In particular a vendor kind is returned only when it is
compiled in and its disabled bit is clear. -/
theorem detectSpin_strict_priority (b : Build) (cpu : CpuEnv) (disabled : Nat) :
    ((DetectSpin b cpu disabled).1 = SpinType.kMonitorX ↔
      (b.enableMonitorX = true ∧ Nat.testBit disabled 0 = false ∧
        cpu.isAMD = true ∧ isBitSet (cpu.cpuid 0x80000001 0).ecx 29 = true)) ∧
    ((DetectSpin b cpu disabled).1 = SpinType.kUMonitor ↔
      (¬(b.enableMonitorX = true ∧ Nat.testBit disabled 0 = false ∧
          cpu.isAMD = true ∧ isBitSet (cpu.cpuid 0x80000001 0).ecx 29 = true) ∧
        b.enableUMonitor = true ∧ Nat.testBit disabled 1 = false ∧
        7 ≤ cpu.maxLevel ∧ isBitSet (cpu.cpuid 7 0).ecx 5 = true)) ∧
    ((DetectSpin b cpu disabled).1 = SpinType.kPause ↔
      (¬(b.enableMonitorX = true ∧ Nat.testBit disabled 0 = false ∧
          cpu.isAMD = true ∧ isBitSet (cpu.cpuid 0x80000001 0).ecx 29 = true) ∧
       ¬(b.enableUMonitor = true ∧ Nat.testBit disabled 1 = false ∧
          7 ≤ cpu.maxLevel ∧ isBitSet (cpu.cpuid 7 0).ecx 5 = true))) ∧
    ((DetectSpin b cpu disabled).1 = SpinType.kMonitorX →
      b.enableMonitorX = true ∧ Nat.testBit disabled 0 = false) ∧
    ((DetectSpin b cpu disabled).1 = SpinType.kUMonitor →
      b.enableUMonitor = true ∧ Nat.testBit disabled 1 = false) := by
  cases hbm : b.enableMonitorX <;> cases hbu : b.enableUMonitor <;>
    cases ham : cpu.isAMD <;>
    cases h29 : isBitSet (cpu.cpuid 0x80000001 0).ecx 29 <;>
    cases h5 : isBitSet (cpu.cpuid 7 0).ecx 5 <;>
    cases hd0 : Nat.testBit disabled 0 <;>
    cases hd1 : Nat.testBit disabled 1 <;>
    cases hd2 : Nat.testBit disabled 2 <;>
    by_cases hml : 7 ≤ cpu.maxLevel <;>
    simp [DetectSpin, spinTypeIndex, hbm, hbu, ham, h29, h5, hd0, hd1, hd2, hml]

/-- Witness for C3: on a build with both vendor variants and an AMD
processor reporting MONITORX, detection with an empty disabled mask picks
kMonitorX. -/
theorem detectSpin_strict_priority_witness :
    (DetectSpin { enableMonitorX := true, enableUMonitor := true }
      amdMonitorXCpu 0).1 = SpinType.kMonitorX :=
  (detectSpin_strict_priority { enableMonitorX := true, enableUMonitor := true }
    amdMonitorXCpu 0).1.mpr (by decide)

/-- Claim C4 counterexample: on a build with both vendor variants, run on
an AMD processor with the MONITORX feature bit, DetectSpin with
disabled = 1 shl 2 (the kPause bit) returns kMonitorX with zero warnings,
not kPause with one warning as the claim states for every build. -/
theorem detectSpin_disable_pause_counterexample :
    DetectSpin { enableMonitorX := true, enableUMonitor := true }
        amdMonitorXCpu 4 = (SpinType.kMonitorX, 0) ∧
    (DetectSpin { enableMonitorX := true, enableUMonitor := true }
        amdMonitorXCpu 4).1 ≠ SpinType.kPause ∧
    (DetectSpin { enableMonitorX := true, enableUMonitor := true }
        amdMonitorXCpu 4).2 = 0 := by decide

/-- Claim C4, amended: whenever neither vendor kind qualifies (its support
not compiled in, or the processor not reporting it), DetectSpin with
disabled = 1 shl 2 (the kPause bit) returns kPause and emits exactly one
warning event. -/
theorem detectSpin_disable_pause_fallback (b : Build) (cpu : CpuEnv)
    (hA : ¬(b.enableMonitorX = true ∧ cpu.isAMD = true ∧
        isBitSet (cpu.cpuid 0x80000001 0).ecx 29 = true))
    (hB : ¬(b.enableUMonitor = true ∧ 7 ≤ cpu.maxLevel ∧
        isBitSet (cpu.cpuid 7 0).ecx 5 = true)) :
    DetectSpin b cpu 4 = (SpinType.kPause, 1) := by
  have ht0 : Nat.testBit 4 0 = false := by decide
  have ht1 : Nat.testBit 4 1 = false := by decide
  have ht2 : Nat.testBit 4 2 = true := by decide
  cases hbm : b.enableMonitorX <;> cases hbu : b.enableUMonitor <;>
    cases ham : cpu.isAMD <;>
    cases h29 : isBitSet (cpu.cpuid 0x80000001 0).ecx 29 <;>
    cases h5 : isBitSet (cpu.cpuid 7 0).ecx 5 <;>
    by_cases hml : 7 ≤ cpu.maxLevel <;>
    simp_all [DetectSpin, spinTypeIndex]

/-- Witness for the amended C4: a build without vendor variants on a plain
processor returns kPause with one warning when kPause is disabled. -/
theorem detectSpin_disable_pause_fallback_witness :
    DetectSpin { enableMonitorX := false, enableUMonitor := false }
        plainCpu 4 = (SpinType.kPause, 1) :=
  detectSpin_disable_pause_fallback
    { enableMonitorX := false, enableUMonitor := false } plainCpu
    (by decide) (by decide)

/-- Claim C5: CallWithSpin invokes func exactly once, passing a freshly
constructed instance of the strategy matching the selector; a vendor kind
not compiled into the build, and any unrecognized or default selector
value, receives a SpinPause instance instead.  Totality of the embedding
reflects that the switch handles every selector without crashing. -/
theorem callWithSpin_invokes_once {α : Type} (b : Build) (raw : Nat)
    (func : SpinStrategy → α) :
    ∃ s : SpinStrategy,
      CallWithSpin b raw func = (func s, [s]) ∧
      (CallWithSpin b raw func).2.length = 1 ∧
      (b.enableMonitorX = true → raw = 0 → s = SpinStrategy.spinMonitorX) ∧
      (b.enableUMonitor = true → raw = 1 → s = SpinStrategy.spinUMonitor) ∧
      (raw = 2 → s = SpinStrategy.spinPause) ∧
      (b.enableMonitorX = false → raw = 0 → s = SpinStrategy.spinPause) ∧
      (b.enableUMonitor = false → raw = 1 → s = SpinStrategy.spinPause) ∧
      (raw ≠ 0 → raw ≠ 1 → s = SpinStrategy.spinPause) := by
  unfold CallWithSpin
  simp only [spinTypeIndex]
  split_ifs with h1 h2
  · simp only [Bool.and_eq_true, beq_iff_eq] at h1
    refine ⟨SpinStrategy.spinMonitorX, rfl, rfl, fun _ _ => rfl,
      ?_, ?_, ?_, ?_, ?_⟩
    · intro _ hr
      omega
    · intro hr
      omega
    · intro hbm _
      rw [h1.1] at hbm
      cases hbm
    · intro _ hr
      omega
    · intro hr _
      exact absurd h1.2 hr
  · simp only [Bool.and_eq_true, beq_iff_eq] at h2
    refine ⟨SpinStrategy.spinUMonitor, rfl, rfl, ?_, fun _ _ => rfl,
      ?_, ?_, ?_, ?_⟩
    · intro _ hr
      omega
    · intro hr
      omega
    · intro _ hr
      omega
    · intro hbu _
      rw [h2.1] at hbu
      cases hbu
    · intro _ hr
      exact absurd h2.2 hr
  · refine ⟨SpinStrategy.spinPause, rfl, rfl, ?_, ?_,
      fun _ => rfl, fun _ _ => rfl, fun _ _ => rfl, fun _ _ => rfl⟩
    · intro hbm hr
      exact absurd (by simp [hbm, hr]) h1
    · intro hbu hr
      exact absurd (by simp [hbu, hr]) h2

/-- Witness for C5: on a build without vendor variants, selector 0 (the
kMonitorX value) is dispatched to a SpinPause instance, invoked once. -/
theorem callWithSpin_invokes_once_witness :
    ∃ s : SpinStrategy,
      CallWithSpin { enableMonitorX := false, enableUMonitor := false } 0
          (fun s => s) = (s, [s]) ∧
      (CallWithSpin { enableMonitorX := false, enableUMonitor := false } 0
          (fun s => s)).2.length = 1 ∧
      (false = true → 0 = 0 → s = SpinStrategy.spinMonitorX) ∧
      (false = true → 0 = 1 → s = SpinStrategy.spinUMonitor) ∧
      ((0 : Nat) = 2 → s = SpinStrategy.spinPause) ∧
      (false = false → 0 = 0 → s = SpinStrategy.spinPause) ∧
      (false = false → 0 = 1 → s = SpinStrategy.spinPause) ∧
      ((0 : Nat) ≠ 0 → (0 : Nat) ≠ 1 → s = SpinStrategy.spinPause) :=
  callWithSpin_invokes_once
    { enableMonitorX := false, enableUMonitor := false } 0 (fun s => s)

/-- Claim C10: the Type() member of each strategy returns its own kind
(SpinPause reports kPause, SpinMonitorX reports kMonitorX, SpinUMonitor
reports kUMonitor), and for every kind compiled into the build the
instance passed by CallWithSpin for that kind reports exactly that
kind. -/
theorem callWithSpin_type_matches {α : Type} (b : Build) (k : SpinType)
    (func : SpinStrategy → α)
    (hm : k = SpinType.kMonitorX → b.enableMonitorX = true)
    (hu : k = SpinType.kUMonitor → b.enableUMonitor = true) :
    SpinStrategy.typeOf SpinStrategy.spinPause = SpinType.kPause ∧
    SpinStrategy.typeOf SpinStrategy.spinMonitorX = SpinType.kMonitorX ∧
    SpinStrategy.typeOf SpinStrategy.spinUMonitor = SpinType.kUMonitor ∧
    ∀ s ∈ (CallWithSpin b (spinTypeIndex k) func).2,
      SpinStrategy.typeOf s = k := by
  refine ⟨rfl, rfl, rfl, ?_⟩
  cases k
  · have hbm := hm rfl
    simp [CallWithSpin, spinTypeIndex, hbm, SpinStrategy.typeOf]
  · have hbu := hu rfl
    simp [CallWithSpin, spinTypeIndex, hbu, SpinStrategy.typeOf]
  · simp [CallWithSpin, spinTypeIndex, SpinStrategy.typeOf]

/-- Witness for C10: on a build with both vendor variants, dispatching on
kMonitorX passes an instance whose Type() is kMonitorX. -/
theorem callWithSpin_type_matches_witness :
    SpinStrategy.typeOf SpinStrategy.spinMonitorX = SpinType.kMonitorX :=
  (callWithSpin_type_matches
      { enableMonitorX := true, enableUMonitor := true }
      SpinType.kMonitorX (fun s => s) (fun _ => rfl)
      (fun h => nomatch h)).2.2.2
    SpinStrategy.spinMonitorX (by decide)

/-- Claim C1: for every strategy, whenever UntilDifferent returns a
SpinResult, the current field is a value actually loaded from the watched
location (an acquire-load event of that value appears in the trace) and it
differs from prev; the call never returns with current equal to prev. -/
theorem untilDifferent_returns_changed_value :
    (∀ (loads : Nat → Nat) (prev fuel reps idx : Nat) (res : SpinResult),
      (spinPauseUntilDifferent loads prev fuel reps idx).1 = some res →
      res.current ≠ prev ∧
        SpinEvent.loadAcquire res.current ∈
          (spinPauseUntilDifferent loads prev fuel reps idx).2) ∧
    (∀ (loads : Nat → Nat) (prev fuel reps idx : Nat) (res : SpinResult),
      (spinMonitorXUntilDifferent loads prev fuel reps idx).1 = some res →
      res.current ≠ prev ∧
        SpinEvent.loadAcquire res.current ∈
          (spinMonitorXUntilDifferent loads prev fuel reps idx).2) ∧
    (∀ (loads : Nat → Nat) (prev fuel reps idx : Nat) (res : SpinResult),
      (spinUMonitorUntilDifferent loads prev fuel reps idx).1 = some res →
      res.current ≠ prev ∧
        SpinEvent.loadAcquire res.current ∈
          (spinUMonitorUntilDifferent loads prev fuel reps idx).2) :=
  ⟨fun loads prev => pauseUD_ne loads prev,
   fun loads prev => monXUD_ne loads prev,
   fun loads prev => uMonUD_ne loads prev⟩

/-- Witness for C1: watching a stream that reads 0 twice and then 7,
UntilDifferent of the pause strategy returns the loaded value 7, which
differs from prev = 0. -/
theorem untilDifferent_returns_changed_value_witness :
    (7 : Nat) ≠ 0 ∧
      SpinEvent.loadAcquire 7 ∈
        (spinPauseUntilDifferent (fun i => if i < 2 then 0 else 7)
          0 5 0 0).2 :=
  untilDifferent_returns_changed_value.1 (fun i => if i < 2 then 0 else 7)
    0 5 0 0 { current := 7, reps := 2 } (by decide)

/-- Claim C2: in both monitor strategies, for both operations, the trace
of a returning call decomposes into completed iterations, each exactly
load, arm, load, wait in that order with both loads failing the return
condition, followed by a final fragment that is either a single load
satisfying the condition (first check) or load, arm, load with the
post-arm load satisfying the condition, in which case the call returns
the current round count without a wait event after the arm. -/
theorem monitor_double_checked_order :
    (∀ (loads : Nat → Nat) (prev fuel reps idx : Nat) (res : SpinResult),
      (spinMonitorXUntilDifferent loads prev fuel reps idx).1 = some res →
      ∃ rounds : List (Nat × Nat), ∃ tail : List SpinEvent,
        (spinMonitorXUntilDifferent loads prev fuel reps idx).2 =
          rounds.flatMap fullRoundX ++ tail ∧
        (∀ p ∈ rounds, p.1 = prev ∧ p.2 = prev) ∧
        res.reps = (reps + rounds.length) % 2 ^ 32 ∧
        (tail = [SpinEvent.loadAcquire res.current] ∨
          tail = [SpinEvent.loadAcquire prev, SpinEvent.monitorx,
            SpinEvent.loadAcquire res.current]) ∧
        res.current ≠ prev) ∧
    (∀ (loads : Nat → Nat) (expected fuel reps idx n : Nat),
      (spinMonitorXUntilEqual loads expected fuel reps idx).1 = some n →
      ∃ rounds : List (Nat × Nat), ∃ tail : List SpinEvent,
        (spinMonitorXUntilEqual loads expected fuel reps idx).2 =
          rounds.flatMap fullRoundX ++ tail ∧
        (∀ p ∈ rounds, p.1 ≠ expected ∧ p.2 ≠ expected) ∧
        n = (reps + rounds.length) % 2 ^ 64 ∧
        (tail = [SpinEvent.loadAcquire expected] ∨
          ∃ a, a ≠ expected ∧
            tail = [SpinEvent.loadAcquire a, SpinEvent.monitorx,
              SpinEvent.loadAcquire expected])) ∧
    (∀ (loads : Nat → Nat) (prev fuel reps idx : Nat) (res : SpinResult),
      (spinUMonitorUntilDifferent loads prev fuel reps idx).1 = some res →
      ∃ rounds : List (Nat × Nat), ∃ tail : List SpinEvent,
        (spinUMonitorUntilDifferent loads prev fuel reps idx).2 =
          rounds.flatMap fullRoundU ++ tail ∧
        (∀ p ∈ rounds, p.1 = prev ∧ p.2 = prev) ∧
        res.reps = (reps + rounds.length) % 2 ^ 32 ∧
        (tail = [SpinEvent.loadAcquire res.current] ∨
          tail = [SpinEvent.loadAcquire prev, SpinEvent.umonitor,
            SpinEvent.loadAcquire res.current]) ∧
        res.current ≠ prev) ∧
    (∀ (loads : Nat → Nat) (expected fuel reps idx n : Nat),
      (spinUMonitorUntilEqual loads expected fuel reps idx).1 = some n →
      ∃ rounds : List (Nat × Nat), ∃ tail : List SpinEvent,
        (spinUMonitorUntilEqual loads expected fuel reps idx).2 =
          rounds.flatMap fullRoundU ++ tail ∧
        (∀ p ∈ rounds, p.1 ≠ expected ∧ p.2 ≠ expected) ∧
        n = (reps + rounds.length) % 2 ^ 64 ∧
        (tail = [SpinEvent.loadAcquire expected] ∨
          ∃ a, a ≠ expected ∧
            tail = [SpinEvent.loadAcquire a, SpinEvent.umonitor,
              SpinEvent.loadAcquire expected])) :=
  ⟨fun loads prev => monXUD_rounds loads prev,
   fun loads expected => monXUE_rounds loads expected,
   fun loads prev => uMonUD_rounds loads prev,
   fun loads expected => uMonUE_rounds loads expected⟩

/-- Witness for C2: a stream reading 0, 0, 0, 9 makes SpinMonitorX run one
full round (load, arm, load, wait) and return 9 on the post-arm load of
the second round, with round count 1 and no wait after the final arm. -/
theorem monitor_double_checked_order_witness :
    ∃ rounds : List (Nat × Nat), ∃ tail : List SpinEvent,
      (spinMonitorXUntilDifferent (fun i => if i = 3 then 9 else 0)
          0 3 0 0).2 = rounds.flatMap fullRoundX ++ tail ∧
      (∀ p ∈ rounds, p.1 = 0 ∧ p.2 = 0) ∧
      (1 : Nat) = (0 + rounds.length) % 2 ^ 32 ∧
      (tail = [SpinEvent.loadAcquire 9] ∨
        tail = [SpinEvent.loadAcquire 0, SpinEvent.monitorx,
          SpinEvent.loadAcquire 9]) ∧
      (9 : Nat) ≠ 0 :=
  monitor_double_checked_order.1 (fun i => if i = 3 then 9 else 0)
    0 3 0 0 { current := 9, reps := 1 } (by decide)

/-- Claim C6: on the same stream of observed values, each monitor
strategy returns exactly when the reference SpinPause strategy returns,
and UntilDifferent returns the same current value; the fuel for SpinPause
is doubled because each monitor iteration performs two loads of the
shared stream. -/
theorem monitor_strategies_match_reference :
    (∀ (loads : Nat → Nat) (prev fuel r1 r2 idx : Nat),
      Option.map SpinResult.current
          (spinPauseUntilDifferent loads prev (2 * fuel) r1 idx).1 =
        Option.map SpinResult.current
          (spinMonitorXUntilDifferent loads prev fuel r2 idx).1) ∧
    (∀ (loads : Nat → Nat) (prev fuel r1 r2 idx : Nat),
      Option.map SpinResult.current
          (spinPauseUntilDifferent loads prev (2 * fuel) r1 idx).1 =
        Option.map SpinResult.current
          (spinUMonitorUntilDifferent loads prev fuel r2 idx).1) ∧
    (∀ (loads : Nat → Nat) (expected fuel r1 r2 idx : Nat),
      (spinPauseUntilEqual loads expected (2 * fuel) r1 idx).1.isSome =
        (spinMonitorXUntilEqual loads expected fuel r2 idx).1.isSome) ∧
    (∀ (loads : Nat → Nat) (expected fuel r1 r2 idx : Nat),
      (spinPauseUntilEqual loads expected (2 * fuel) r1 idx).1.isSome =
        (spinUMonitorUntilEqual loads expected fuel r2 idx).1.isSome) :=
  ⟨fun loads prev => pause_monX_UD_same loads prev,
   fun loads prev => pause_uMon_UD_same loads prev,
   fun loads expected => pause_monX_UE_same loads expected,
   fun loads expected => pause_uMon_UE_same loads expected⟩

/-- Claim C7: for every strategy, if the watched location already differs
from prev at the first acquire load, UntilDifferent returns on that first
check with reps 0 and current equal to the loaded value, having performed
exactly that one load. -/
theorem untilDifferent_zero_reps_on_first_check (loads : Nat → Nat)
    (prev fuel : Nat) (h : loads 0 ≠ prev) :
    spinPauseUntilDifferent loads prev (fuel + 1) 0 0 =
      (some { current := loads 0, reps := 0 },
        [SpinEvent.loadAcquire (loads 0)]) ∧
    spinMonitorXUntilDifferent loads prev (fuel + 1) 0 0 =
      (some { current := loads 0, reps := 0 },
        [SpinEvent.loadAcquire (loads 0)]) ∧
    spinUMonitorUntilDifferent loads prev (fuel + 1) 0 0 =
      (some { current := loads 0, reps := 0 },
        [SpinEvent.loadAcquire (loads 0)]) := by
  refine ⟨?_, ?_, ?_⟩
  · rw [spinPauseUntilDifferent]
    simp [h]
  · rw [spinMonitorXUntilDifferent]
    simp [h]
  · rw [spinUMonitorUntilDifferent]
    simp [h]

/-- Witness for C7: a stream constantly reading 3 with prev = 0 makes all
three strategies return on the first check with reps 0. -/
theorem untilDifferent_zero_reps_on_first_check_witness :
    spinPauseUntilDifferent (fun _ => 3) 0 1 0 0 =
      (some { current := 3, reps := 0 }, [SpinEvent.loadAcquire 3]) ∧
    spinMonitorXUntilDifferent (fun _ => 3) 0 1 0 0 =
      (some { current := 3, reps := 0 }, [SpinEvent.loadAcquire 3]) ∧
    spinUMonitorUntilDifferent (fun _ => 3) 0 1 0 0 =
      (some { current := 3, reps := 0 }, [SpinEvent.loadAcquire 3]) :=
  untilDifferent_zero_reps_on_first_check (fun _ => 3) 0 0 (by decide)

/-- Claim C8: for every strategy, UntilEqual returns only after an acquire
load observed the expected value (such a load appears in the trace), the
returned number is the count of completed polling rounds (the count of
wait or pause events, reduced mod 2^64 as a size_t), and a first load
already equal to expected yields round count 0.  The loaded value itself
is discarded: the return type carries only the count. -/
theorem untilEqual_returns_round_count :
    (∀ (loads : Nat → Nat) (expected fuel n : Nat),
      (spinPauseUntilEqual loads expected fuel 0 0).1 = some n →
      SpinEvent.loadAcquire expected ∈
          (spinPauseUntilEqual loads expected fuel 0 0).2 ∧
      n = ((spinPauseUntilEqual loads expected fuel 0 0).2.count
          SpinEvent.pause) % 2 ^ 64) ∧
    (∀ (loads : Nat → Nat) (expected fuel n : Nat),
      (spinMonitorXUntilEqual loads expected fuel 0 0).1 = some n →
      SpinEvent.loadAcquire expected ∈
          (spinMonitorXUntilEqual loads expected fuel 0 0).2 ∧
      n = ((spinMonitorXUntilEqual loads expected fuel 0 0).2.count
          SpinEvent.mwaitx) % 2 ^ 64) ∧
    (∀ (loads : Nat → Nat) (expected fuel n : Nat),
      (spinUMonitorUntilEqual loads expected fuel 0 0).1 = some n →
      SpinEvent.loadAcquire expected ∈
          (spinUMonitorUntilEqual loads expected fuel 0 0).2 ∧
      n = ((spinUMonitorUntilEqual loads expected fuel 0 0).2.count
          SpinEvent.umwait) % 2 ^ 64) ∧
    (∀ (loads : Nat → Nat) (expected fuel : Nat), loads 0 = expected →
      (spinPauseUntilEqual loads expected (fuel + 1) 0 0).1 = some 0 ∧
      (spinMonitorXUntilEqual loads expected (fuel + 1) 0 0).1 = some 0 ∧
      (spinUMonitorUntilEqual loads expected (fuel + 1) 0 0).1 = some 0) := by
  refine ⟨?_, ?_, ?_, ?_⟩
  · intro loads expected fuel n h
    simpa using pauseUE_count loads expected fuel 0 0 n h
  · intro loads expected fuel n h
    simpa using monXUE_count loads expected fuel 0 0 n h
  · intro loads expected fuel n h
    simpa using uMonUE_count loads expected fuel 0 0 n h
  · intro loads expected fuel h
    refine ⟨?_, ?_, ?_⟩
    · rw [spinPauseUntilEqual]
      simp [h]
    · rw [spinMonitorXUntilEqual]
      simp [h]
    · rw [spinUMonitorUntilEqual]
      simp [h]

/-- Witness for C8: a stream reading 0, 1, 2 with expected = 2 makes the
pause strategy return after two pause rounds, and the returned count 2
matches the number of pause events in the trace. -/
theorem untilEqual_returns_round_count_witness :
    SpinEvent.loadAcquire 2 ∈ (spinPauseUntilEqual (fun i => i) 2 5 0 0).2 ∧
    (2 : Nat) = ((spinPauseUntilEqual (fun i => i) 2 5 0 0).2.count
        SpinEvent.pause) % 2 ^ 64 :=
  untilEqual_returns_round_count.1 (fun i => i) 2 5 2 (by decide)

/-- Claim C9: no wait operation of any strategy ever writes the watched
location: every event in every trace of all six operations is a
non-store (only acquire loads, pause hints, monitor arms and waits), so
the watched value is unchanged by the act of waiting. -/
theorem wait_ops_never_store :
    ∀ (loads : Nat → Nat) (x fuel reps idx : Nat),
      ((spinPauseUntilDifferent loads x fuel reps idx).2.all
        fun e => !e.isStore) = true ∧
      ((spinPauseUntilEqual loads x fuel reps idx).2.all
        fun e => !e.isStore) = true ∧
      ((spinMonitorXUntilDifferent loads x fuel reps idx).2.all
        fun e => !e.isStore) = true ∧
      ((spinMonitorXUntilEqual loads x fuel reps idx).2.all
        fun e => !e.isStore) = true ∧
      ((spinUMonitorUntilDifferent loads x fuel reps idx).2.all
        fun e => !e.isStore) = true ∧
      ((spinUMonitorUntilEqual loads x fuel reps idx).2.all
        fun e => !e.isStore) = true :=
  fun loads x fuel reps idx =>
    ⟨pauseUD_noStore loads x fuel reps idx,
     pauseUE_noStore loads x fuel reps idx,
     monXUD_noStore loads x fuel reps idx,
     monXUE_noStore loads x fuel reps idx,
     uMonUD_noStore loads x fuel reps idx,
     uMonUE_noStore loads x fuel reps idx⟩

end hwy
